import Mathlib

/-!
Shallow embedding of the taar recommendation core:
`src/taar/recommenders/similarity_recommender.py` and
`src/taar/recommenders/recommendation_manager.py`.

Python numbers are modelled as rationals (ℚ); a Python value that may be
`None` (or an absent dictionary key — the code only ever accesses profile
fields through `.get(key)` with default `None`, which conflates the two)
is modelled as an `Option`.  A Python run that raises an exception is
modelled as `none`; a normal return of `v` is `some v`.
-/

namespace Taar

/-- ClientData models a telemetry profile dictionary, restricted to the 8
fields the similarity recommender reads (3 categorical, 5 continuous).
`none` means the key is absent or bound to `None`. -/
structure ClientData where
  geo_city : Option String
  locale : Option String
  os : Option String
  subsession_length : Option ℚ
  bookmark_count : Option ℚ
  tab_open_count : Option ℚ
  total_uri : Option ℚ
  unique_tlds : Option ℚ
deriving DecidableEq

/-- Donor models one record of `donors.json`: the same 8 feature fields
(all present, per the donor-pool data contract) plus `active_addons`. -/
structure Donor where
  geo_city : String
  locale : String
  os : String
  subsession_length : ℚ
  bookmark_count : ℚ
  tab_open_count : ℚ
  total_uri : ℚ
  unique_tlds : ℚ
  active_addons : List String
deriving DecidableEq

/-- Fallback donor used only for out-of-range list indexing (never reached
when indices come from an argsort of the donor list itself). -/
def defaultDonor : Donor := ⟨"", "", "", 0, 0, 0, 0, 0, []⟩

/-- CurvePoint models one entry `[score, [numer_val, denum_val]]` of
`lr_curves.json`. -/
abbrev CurvePoint := ℚ × ℚ × ℚ

/-- Donor row of the continuous feature cache, in `CONTINUOUS_FEATURES`
order (`build_features_caches`). -/
def donorContFeatures (d : Donor) : List ℚ :=
  [d.subsession_length, d.bookmark_count, d.tab_open_count, d.total_uri, d.unique_tlds]

/-- Donor row of the categorical feature cache, in `CATEGORICAL_FEATURES`
order (`build_features_caches`). -/
def donorCatFeatures (d : Donor) : List String :=
  [d.geo_city, d.locale, d.os]

/-- Continuous feature cache matrix: one row per donor
(`self.continuous_features`). -/
def continuousFeaturesCache (donors : List Donor) : List (List ℚ) :=
  donors.map donorContFeatures

/-- Categorical feature cache matrix: one row per donor
(`self.categorical_features`). -/
def categoricalFeaturesCache (donors : List Donor) : List (List String) :=
  donors.map donorCatFeatures

/-- Client categorical feature extraction
`[client_data.get(k) for k in CATEGORICAL_FEATURES]`; a missing value stays
in the row (the object-dtype Hamming comparison tolerates `None`). -/
def clientCatFeats (c : ClientData) : List (Option String) :=
  [c.geo_city, c.locale, c.os]

/-- Client continuous feature extraction
`[client_data.get(k) for k in CONTINUOUS_FEATURES]`; if any value is `None`
the subsequent numeric `cdist` call raises, modelled by `none`. -/
def clientContFeats (c : ClientData) : Option (List ℚ) :=
  match c.subsession_length, c.bookmark_count, c.tab_open_count, c.total_uri, c.unique_tlds with
  | some a, some b, some t, some u, some v => some [a, b, t, u, v]
  | _, _, _, _, _ => none

/-- Canberra distance (scipy): `Σ |x − y| / (|x| + |y|)`, a `0/0` term
contributing `0` — which is exactly ℚ division's convention. -/
def canberra (xs ys : List ℚ) : ℚ :=
  (List.zipWith (fun x y => |x - y| / (|x| + |y|)) xs ys).sum

/-- Hamming distance (scipy): fraction of positions that disagree, with the
donor value compared raw (uncast) against the client value; a `None` client
value simply differs from every donor string. -/
def hammingDist (xs : List String) (ys : List (Option String)) : ℚ :=
  (List.zipWith (fun x y => if some x = y then (0 : ℚ) else 1) xs ys).sum / (xs.length : ℚ)

/-- Test that the profile has a non-`None` value for each of the 8
`REQUIRED_FIELDS` (`can_recommend`'s `has_fields`). -/
def hasRequiredFields (c : ClientData) : Bool :=
  c.geo_city.isSome && c.locale.isSome && c.os.isSome &&
  c.subsession_length.isSome && c.bookmark_count.isSome &&
  c.tab_open_count.isSome && c.total_uri.isSome && c.unique_tlds.isSome

/-- SimilarityRecommender.can_recommend: false when a backing dataset is
absent (`None`), otherwise the required-field check.  Note the code tests
`is None`, not emptiness. -/
def can_recommend (donors_pool : Option (List Donor)) (lr_curves : Option (List CurvePoint))
    (client_data : ClientData) : Bool :=
  match donors_pool, lr_curves with
  | some _, some _ => hasRequiredFields client_data
  | _, _ => false

/-- Index of the first minimum of a list (`np.argmin`; `0` on the empty
list, where numpy would raise — callers guard for that). -/
def argminIdx : List ℚ → Nat
  | [] => 0
  | [_] => 0
  | x :: y :: xs =>
    let r := argminIdx (y :: xs)
    if x ≤ (y :: xs).getD r 0 then 0 else r + 1

/-- SimilarityRecommender.get_lr: nearest-score lookup in the calibration
curve followed by the density ratio.  `none` models the `np.argmin` failure
on an empty curve. -/
def get_lr (lr_curves : List CurvePoint) (score : ℚ) : Option ℚ :=
  match lr_curves with
  | [] => none
  | _ :: _ =>
    let lr_curves_cache := lr_curves.map (fun s => s.1)
    let idx := argminIdx (lr_curves_cache.map (fun v => |score - v|))
    let numer_val := (lr_curves.getD idx (0, 0, 0)).2.1
    let denum_val := (lr_curves.getD idx (0, 0, 0)).2.2
    some (numer_val / denum_val)

/-- Per-donor composite distances
`(cont_features + 0.001) * cat_features` of `get_similar_donors`, computed
through the two feature cache matrices; `none` models the `cdist` failure
on a client with a missing continuous feature. -/
def compositeDistances (donors : List Donor) (client_data : ClientData) : Option (List ℚ) :=
  match clientContFeats client_data with
  | none => none
  | some client_continuous_feats =>
    let cont_features :=
      (continuousFeaturesCache donors).map (fun row => canberra row client_continuous_feats)
    let cat_features :=
      (categoricalFeaturesCache donors).map
        (fun row => hammingDist row (clientCatFeats client_data))
    some (List.zipWith (fun a b => (a + 1 / 1000) * b) cont_features cat_features)

/-- Sequence a list of fallible computations (a Python list comprehension
whose element expression may raise). -/
def mapOrFail {α β : Type} (f : α → Option β) : List α → Option (List β)
  | [] => some []
  | x :: xs =>
    match f x, mapOrFail f xs with
    | some y, some ys => some (y :: ys)
    | _, _ => none

/-- Likelihood ratio of each donor in pool order:
`[self.get_lr(distances[i]) for i in range(self.num_donors)]`; `none` when
any step raises. -/
def donorLRs (donors : List Donor) (lr_curves : List CurvePoint)
    (client_data : ClientData) : Option (List ℚ) :=
  match compositeDistances donors client_data with
  | none => none
  | some distances => mapOrFail (get_lr lr_curves) distances

/-- Indices of the donor LRs in descending LR order
(`(-lrs_from_scores).argsort()`); `np.argsort`'s tie order is
implementation-defined and deterministic, modelled by an insertion sort. -/
def argsortDesc (lrs : List ℚ) : List Nat :=
  List.insertionSort (fun i j => lrs.getD j 0 ≤ lrs.getD i 0) (List.range lrs.length)

/-- SimilarityRecommender.get_similar_donors: the sorted LR values together
with the donor indices that produced them. -/
def get_similar_donors (donors : List Donor) (lr_curves : List CurvePoint)
    (client_data : ClientData) : Option (List ℚ × List Nat) :=
  match donorLRs donors lr_curves client_data with
  | none => none
  | some lrs_from_scores =>
    let indices := argsortDesc lrs_from_scores
    some (indices.map (fun i => lrs_from_scores.getD i 0), indices)

/-- Aggregation loop of SimilarityRecommender.recommend: extend the working
list with each ranked donor's `active_addons`, breaking once its length
exceeds `limit`. -/
def aggregateAddons (donors : List Donor) (limit : Nat) :
    List Nat → List String → List String
  | [], recommendations => recommendations
  | good_candidate_index :: rest, recommendations =>
    let extended :=
      recommendations ++ (donors.getD good_candidate_index defaultDonor).active_addons
    if limit < extended.length then extended
    else aggregateAddons donors limit rest extended

/-- SimilarityRecommender.recommend.  `none` models a raised exception: the
missing feature caches when a backing dataset is `None`, a `cdist`/argmin
failure, or the `donor_set_ranking[0]` IndexError on an empty ranking. -/
def recommend (donors_pool : Option (List Donor)) (lr_curves : Option (List CurvePoint))
    (client_data : ClientData) (limit : Nat) : Option (List String) :=
  match donors_pool, lr_curves with
  | some donors, some curves =>
    match get_similar_donors donors curves client_data with
    | none => none
    | some (donor_set_ranking, indices) =>
      match donor_set_ranking with
      | [] => none
      | _ :: _ =>
        let highest_scores_indices :=
          (indices.zip donor_set_ranking).filterMap
            (fun p => if 1 < p.2 then some p.1 else none)
        some ((aggregateAddons donors limit highest_scores_indices []).take limit)
  | _, _ => none

/-- Recommender models one strategy of the dispatcher's ordered tuple:
the BaseRecommender interface. -/
structure Recommender where
  can_recommend : ClientData → Bool
  recommend : ClientData → Nat → List String

/-- First-match loop of RecommendationManager.recommend over the ordered
strategies. -/
def dispatch (recommenders : List Recommender) (client_info : ClientData)
    (limit : Nat) : List String :=
  match recommenders with
  | [] => []
  | r :: rest =>
    if r.can_recommend client_info then r.recommend client_info limit
    else dispatch rest client_info limit

/-- RecommendationManager.recommend: profile fetch result (already
resolved to `client_info`), then the first-match loop. -/
def RecommendationManager.recommend (recommenders : List Recommender)
    (client_info : Option ClientData) (limit : Nat) : List String :=
  match client_info with
  | none => []
  | some info => dispatch recommenders info limit

/-- Probe profile with all 8 required fields present. -/
def probeClient : ClientData :=
  ⟨some "x", some "en-US", some "linux", some 1, some 2, some 3, some 4, some 5⟩

/-- Probe donor whose 8 features match `probeClient` exactly. -/
def probeDonorNear : Donor :=
  ⟨"x", "en-US", "linux", 1, 2, 3, 4, 5, ["a1", "a2", "a3"]⟩

/-- Probe donor distant from `probeClient` on every categorical feature. -/
def probeDonorFar : Donor :=
  ⟨"y", "fr", "win", 10, 2, 3, 4, 5, ["b1", "b2", "b3"]⟩

/-- Probe calibration curve: score 0 maps to LR 2, score 1/2 to LR 1/2. -/
def probeCurve : List CurvePoint := [(0, 2, 1), (1 / 2, 1, 2)]

/-- Probe strategy whose `can_recommend` is always false. -/
def probeRecommenderOff : Recommender :=
  ⟨fun _ => false, fun _ limit => ["off1"].take limit⟩

/-- Probe strategy whose `can_recommend` is always true. -/
def probeRecommenderOn : Recommender :=
  ⟨fun _ => true, fun _ limit => ["on1", "on2"].take limit⟩

/-- Probe strategy placed after `probeRecommenderOn` in dispatch order. -/
def probeRecommenderLate : Recommender :=
  ⟨fun _ => true, fun _ limit => ["late1"].take limit⟩

/-- SimilarityRecommender instance state after `__init__`: the two donor
payloads and the derived caches of `build_features_caches`. -/
structure SimilarityRecommender where
  donors_pool : Option (List Donor)
  lr_curves : Option (List CurvePoint)
  continuous_features : List (List ℚ)
  categorical_features : List (List String)
  lr_curves_cache : List ℚ
  num_donors : Nat

/-- State-passing form of `can_recommend`: the method reads the instance
and returns it unchanged with the boolean (no statement in the Python body
assigns to `self`). -/
def SimilarityRecommender.canRecommendM (s : SimilarityRecommender)
    (client_data : ClientData) : SimilarityRecommender × Bool :=
  (s, can_recommend s.donors_pool s.lr_curves client_data)

/-- State-passing form of `recommend`: the method reads the instance and
returns it unchanged with the recommendation list (the result is a fresh
list extended from donor add-on lists, no statement assigns to `self`). -/
def SimilarityRecommender.recommendM (s : SimilarityRecommender)
    (client_data : ClientData) (limit : Nat) : SimilarityRecommender × Option (List String) :=
  (s, recommend s.donors_pool s.lr_curves client_data limit)

/-! ## Supporting lemmas -/

theorem getD_map_of_lt {α β : Type} (f : α → β) (d : α) (e : β) :
    ∀ (l : List α) (j : Nat), j < l.length → (l.map f).getD j e = f (l.getD j d)
  | [], j, hj => by simp at hj
  | x :: xs, 0, _ => rfl
  | x :: xs, j + 1, hj => by
    simp only [List.map_cons, List.getD_cons_succ]
    exact getD_map_of_lt f d e xs j (by simpa using hj)

theorem getD_zipWith_of_lt {α β γ : Type} (f : α → β → γ) (da : α) (db : β) (dc : γ) :
    ∀ (xs : List α) (ys : List β) (j : Nat), j < xs.length → j < ys.length →
      (List.zipWith f xs ys).getD j dc = f (xs.getD j da) (ys.getD j db)
  | [], _, j, hj, _ => by simp at hj
  | _ :: _, [], j, _, hj => by simp at hj
  | x :: xs, y :: ys, 0, _, _ => rfl
  | x :: xs, y :: ys, j + 1, hj, hj' => by
    simp only [List.zipWith_cons_cons, List.getD_cons_succ]
    exact getD_zipWith_of_lt f da db dc xs ys j (by simpa using hj) (by simpa using hj')

theorem mapOrFail_length {α β : Type} (f : α → Option β) :
    ∀ (l : List α) (l' : List β), mapOrFail f l = some l' → l'.length = l.length
  | [], l', h => by simp only [mapOrFail, Option.some.injEq] at h; subst h; rfl
  | x :: xs, l', h => by
    simp only [mapOrFail] at h
    rcases hx : f x with _ | y <;> rw [hx] at h
    · exact absurd h (by simp)
    · rcases hxs : mapOrFail f xs with _ | ys <;> rw [hxs] at h
      · exact absurd h (by simp)
      · simp only [Option.some.injEq] at h
        subst h
        simpa using mapOrFail_length f xs ys hxs

theorem compositeDistances_length (donors : List Donor) (c : ClientData) (ds : List ℚ)
    (h : compositeDistances donors c = some ds) : ds.length = donors.length := by
  unfold compositeDistances at h
  rcases hc : clientContFeats c with _ | contC <;> rw [hc] at h
  · exact absurd h (by simp)
  · simp only [Option.some.injEq] at h
    subst h
    simp [continuousFeaturesCache, categoricalFeaturesCache]

theorem donorLRs_length (donors : List Donor) (curves : List CurvePoint) (c : ClientData)
    (lrs : List ℚ) (h : donorLRs donors curves c = some lrs) : lrs.length = donors.length := by
  unfold donorLRs at h
  rcases hd : compositeDistances donors c with _ | ds <;> rw [hd] at h
  · exact absurd h (by simp)
  · rw [mapOrFail_length (get_lr curves) ds lrs h]
    exact compositeDistances_length donors c ds hd

theorem mem_argsortDesc (lrs : List ℚ) (i : Nat) : i ∈ argsortDesc lrs ↔ i < lrs.length := by
  unfold argsortDesc
  rw [(List.perm_insertionSort _ _).mem_iff]
  exact List.mem_range

theorem length_argsortDesc (lrs : List ℚ) : (argsortDesc lrs).length = lrs.length := by
  unfold argsortDesc
  rw [(List.perm_insertionSort _ _).length_eq]
  exact List.length_range _

theorem argsortDesc_sorted (lrs : List ℚ) :
    List.Sorted (fun i j => lrs.getD j 0 ≤ lrs.getD i 0) (argsortDesc lrs) := by
  haveI : IsTotal ℕ (fun i j => lrs.getD j 0 ≤ lrs.getD i 0) := ⟨fun a b => le_total _ _⟩
  haveI : IsTrans ℕ (fun i j => lrs.getD j 0 ≤ lrs.getD i 0) :=
    ⟨fun a b c h1 h2 => le_trans h2 h1⟩
  exact List.sorted_insertionSort _ _

theorem get_similar_donors_eq (donors : List Donor) (curves : List CurvePoint)
    (c : ClientData) (ranking : List ℚ) (indices : List Nat)
    (h : get_similar_donors donors curves c = some (ranking, indices)) :
    ∃ lrs, donorLRs donors curves c = some lrs ∧ indices = argsortDesc lrs ∧
      ranking = indices.map (fun i => lrs.getD i 0) := by
  unfold get_similar_donors at h
  rcases hl : donorLRs donors curves c with _ | lrs <;> rw [hl] at h
  · exact absurd h (by simp)
  · simp only [Option.some.injEq, Prod.mk.injEq] at h
    exact ⟨lrs, rfl, h.2.symm, by rw [← h.1, h.2]⟩

theorem aggregateAddons_take (donors : List Donor) (limit : Nat) :
    ∀ (idxs : List Nat) (acc : List String),
      (aggregateAddons donors limit idxs acc).take limit =
        (acc ++ (idxs.map fun i => (donors.getD i defaultDonor).active_addons).flatten).take limit
  | [], acc => by simp [aggregateAddons]
  | i :: rest, acc => by
    simp only [aggregateAddons, List.map_cons, List.flatten_cons, ← List.append_assoc]
    by_cases hlen : limit < (acc ++ (donors.getD i defaultDonor).active_addons).length
    · rw [if_pos hlen]
      exact (List.take_append_of_le_length (le_of_lt hlen)).symm
    · rw [if_neg hlen]
      exact aggregateAddons_take donors limit rest _

theorem mem_aggregateAddons (donors : List Donor) (limit : Nat) :
    ∀ (idxs : List Nat) (acc : List String) (a : String),
      a ∈ aggregateAddons donors limit idxs acc →
      a ∈ acc ∨ ∃ i ∈ idxs, a ∈ (donors.getD i defaultDonor).active_addons
  | [], acc, a, ha => Or.inl ha
  | i :: rest, acc, a, ha => by
    simp only [aggregateAddons] at ha
    by_cases hlen :
        limit < (acc ++ (donors.getD i defaultDonor).active_addons).length
    · rw [if_pos hlen] at ha
      rcases List.mem_append.mp ha with h | h
      · exact Or.inl h
      · exact Or.inr ⟨i, List.mem_cons_self i rest, h⟩
    · rw [if_neg hlen] at ha
      rcases mem_aggregateAddons donors limit rest _ a ha with h | ⟨j, hj, hja⟩
      · rcases List.mem_append.mp h with h | h
        · exact Or.inl h
        · exact Or.inr ⟨i, List.mem_cons_self i rest, h⟩
      · exact Or.inr ⟨j, List.mem_cons_of_mem i hj, hja⟩

theorem argminIdx_lt : ∀ (l : List ℚ), l ≠ [] → argminIdx l < l.length
  | [], h => absurd rfl h
  | [_], _ => by simp [argminIdx]
  | x :: y :: xs, _ => by
    simp only [argminIdx]
    by_cases hc : x ≤ (y :: xs).getD (argminIdx (y :: xs)) 0
    · rw [if_pos hc]
      simp
    · rw [if_neg hc]
      have := argminIdx_lt (y :: xs) (by simp)
      simp only [List.length_cons] at this ⊢
      omega

theorem argminIdx_le :
    ∀ (l : List ℚ) (j : Nat), j < l.length → l.getD (argminIdx l) 0 ≤ l.getD j 0
  | [], j, hj => by simp at hj
  | [x], j, hj => by
    have : j = 0 := by simpa using Nat.lt_one_iff.mp (by simpa using hj)
    subst this
    exact le_refl _
  | x :: y :: xs, j, hj => by
    simp only [argminIdx]
    by_cases hc : x ≤ (y :: xs).getD (argminIdx (y :: xs)) 0
    · rw [if_pos hc]
      rcases j with _ | k
      · exact le_refl _
      · simp only [List.getD_cons_zero, List.getD_cons_succ]
        exact le_trans hc (argminIdx_le (y :: xs) k (by simpa using hj))
    · rw [if_neg hc]
      rcases j with _ | k
      · simp only [List.getD_cons_zero, List.getD_cons_succ]
        exact le_of_lt (lt_of_not_le hc)
      · simp only [List.getD_cons_succ]
        exact argminIdx_le (y :: xs) k (by simpa using hj)

theorem argminIdx_first :
    ∀ (l : List ℚ) (j : Nat), j < argminIdx l → l.getD (argminIdx l) 0 < l.getD j 0
  | [], j, hj => by simp [argminIdx] at hj
  | [x], j, hj => by simp [argminIdx] at hj
  | x :: y :: xs, j, hj => by
    simp only [argminIdx] at hj ⊢
    by_cases hc : x ≤ (y :: xs).getD (argminIdx (y :: xs)) 0
    · rw [if_pos hc] at hj
      exact absurd hj (by simp)
    · rw [if_neg hc] at hj ⊢
      rcases j with _ | k
      · simp only [List.getD_cons_zero, List.getD_cons_succ]
        exact lt_of_not_le hc
      · simp only [List.getD_cons_succ]
        exact argminIdx_first (y :: xs) k (by simpa using hj)

theorem canberra_comm : ∀ (xs ys : List ℚ), canberra xs ys = canberra ys xs
  | [], ys => by cases ys <;> rfl
  | _ :: _, [] => rfl
  | x :: xs, y :: ys => by
    simp only [canberra, List.zipWith_cons_cons, List.sum_cons]
    rw [abs_sub_comm, add_comm |x| |y|]
    have := canberra_comm xs ys
    simp only [canberra] at this
    rw [this]

/-! ## Claim theorems -/

/-- C1: the claim says an empty (present) donor pool forces `can_recommend`
to false and keeps `recommend` from the distance computation.  The code only
tests `donors_pool is None`, so a complete profile passes the gate and
`recommend` reaches the distance step, then raises IndexError at
`donor_set_ranking[0]` (modelled by `none`). -/
theorem empty_pool_passes_gate_and_recommend_raises :
    can_recommend (some []) (some probeCurve) probeClient = true ∧
    recommend (some []) (some probeCurve) probeClient 10 = none :=
  ⟨rfl, rfl⟩

/-- C4: the dispatcher returns `[]` when no profile is fetched, whatever the
strategies; returns exactly the selected (first applicable) strategy's
output for every choice of later strategies; and returns `[]` when no
strategy applies. -/
theorem manager_first_match_policy :
    (∀ (recommenders : List Recommender) (limit : Nat),
      RecommendationManager.recommend recommenders none limit = []) ∧
    (∀ (pre post : List Recommender) (s : Recommender) (info : ClientData) (limit : Nat),
      (∀ r ∈ pre, r.can_recommend info = false) → s.can_recommend info = true →
      RecommendationManager.recommend (pre ++ s :: post) (some info) limit =
        s.recommend info limit) ∧
    (∀ (recommenders : List Recommender) (info : ClientData) (limit : Nat),
      (∀ r ∈ recommenders, r.can_recommend info = false) →
      RecommendationManager.recommend recommenders (some info) limit = []) := by
  refine ⟨fun _ _ => rfl, ?_, ?_⟩
  · intro pre post s info limit hpre hs
    induction pre with
    | nil => simp [RecommendationManager.recommend, dispatch, hs]
    | cons r rest ih =>
      have hr : r.can_recommend info = false := hpre r (List.mem_cons_self r rest)
      simp only [RecommendationManager.recommend, List.cons_append, dispatch, hr,
        Bool.false_eq_true, if_false]
      exact ih (fun q hq => hpre q (List.mem_cons_of_mem r hq))
  · intro recommenders info limit hall
    induction recommenders with
    | nil => rfl
    | cons r rest ih =>
      have hr : r.can_recommend info = false := hall r (List.mem_cons_self r rest)
      simp only [RecommendationManager.recommend, dispatch, hr, Bool.false_eq_true, if_false]
      exact ih (fun q hq => hall q (List.mem_cons_of_mem r hq))

/-- C4 witness: concrete dispatch over three probe strategies. -/
theorem manager_first_match_policy_witness :
    RecommendationManager.recommend [probeRecommenderOff] none 5 = [] ∧
    RecommendationManager.recommend [probeRecommenderOff, probeRecommenderOn, probeRecommenderLate]
        (some probeClient) 5 = probeRecommenderOn.recommend probeClient 5 ∧
    RecommendationManager.recommend [probeRecommenderOff] (some probeClient) 5 = [] :=
  ⟨manager_first_match_policy.1 [probeRecommenderOff] 5,
    manager_first_match_policy.2.1 [probeRecommenderOff] [probeRecommenderLate]
      probeRecommenderOn probeClient 5
      (by intro r hr; rw [List.mem_singleton.mp hr]; rfl) rfl,
    manager_first_match_policy.2.2 [probeRecommenderOff] probeClient 5
      (by intro r hr; rw [List.mem_singleton.mp hr]; rfl)⟩

/-- C7: `can_recommend` returns false (it is total, so it cannot fail)
whenever a backing dataset is absent or any of the 8 required profile
attributes is missing/null. -/
theorem can_recommend_false_on_missing (dp : Option (List Donor))
    (lc : Option (List CurvePoint)) (c : ClientData)
    (h : dp = none ∨ lc = none ∨ c.geo_city = none ∨ c.locale = none ∨ c.os = none ∨
      c.subsession_length = none ∨ c.bookmark_count = none ∨ c.tab_open_count = none ∨
      c.total_uri = none ∨ c.unique_tlds = none) :
    can_recommend dp lc c = false := by
  rcases dp with _ | donors
  · rfl
  rcases lc with _ | curves
  · rfl
  rcases h with h | h | h | h | h | h | h | h | h | h
  · exact absurd h (by simp)
  · exact absurd h (by simp)
  all_goals simp [can_recommend, hasRequiredFields, h]

/-- C7 witness: absent donor pool on a complete profile. -/
theorem can_recommend_false_on_missing_witness :
    can_recommend none (some probeCurve) probeClient = false :=
  can_recommend_false_on_missing none (some probeCurve) probeClient (Or.inl rfl)

/-- C8: `recommend` is a pure function of the donor pool, calibration
curve, profile and limit: two calls on identical inputs return identical
output, ordering included. -/
theorem similarity_recommend_deterministic (dp dp' : Option (List Donor))
    (lc lc' : Option (List CurvePoint)) (c c' : ClientData) (limit limit' : Nat)
    (hdp : dp = dp') (hlc : lc = lc') (hc : c = c') (hl : limit = limit') :
    recommend dp lc c limit = recommend dp' lc' c' limit' := by
  subst hdp hlc hc hl
  rfl

/-- C8 witness: determinism at a concrete input. -/
theorem similarity_recommend_deterministic_witness :
    recommend (some [probeDonorNear]) (some probeCurve) probeClient 10 =
      recommend (some [probeDonorNear]) (some probeCurve) probeClient 10 :=
  similarity_recommend_deterministic (some [probeDonorNear]) (some [probeDonorNear])
    (some probeCurve) (some probeCurve) probeClient probeClient 10 10 rfl rfl rfl rfl

/-- C10: the state-passing forms of `can_recommend` and `recommend` return
the SimilarityRecommender state unchanged: donor pool, curve, both feature
cache matrices and the cached score array are those of the input state. -/
theorem similarity_methods_preserve_state (s : SimilarityRecommender)
    (c : ClientData) (limit : Nat) :
    (s.canRecommendM c).1 = s ∧ (s.recommendM c limit).1 = s :=
  ⟨rfl, rfl⟩

/-- C2: every list returned by the similarity `recommend` has length at
most `limit`, and so does the dispatcher's result whenever each configured
strategy honours the bound. -/
theorem recommend_length_bounded :
    (∀ (dp : Option (List Donor)) (lc : Option (List CurvePoint)) (c : ClientData)
      (limit : Nat) (res : List String), 0 < limit →
      recommend dp lc c limit = some res → res.length ≤ limit) ∧
    (∀ (recommenders : List Recommender) (client_info : Option ClientData) (limit : Nat),
      0 < limit →
      (∀ r ∈ recommenders, ∀ p l, (r.recommend p l).length ≤ l) →
      (RecommendationManager.recommend recommenders client_info limit).length ≤ limit) := by
  constructor
  · intro dp lc c limit res _ h
    rcases dp with _ | donors
    · exact absurd h (by simp [recommend])
    rcases lc with _ | curves
    · exact absurd h (by simp [recommend])
    rcases hg : get_similar_donors donors curves c with _ | ⟨ranking, indices⟩
    · exact absurd h (by simp [recommend, hg])
    rcases ranking with _ | ⟨r0, rest⟩
    · exact absurd h (by simp [recommend, hg])
    simp only [recommend, hg, Option.some.injEq] at h
    subst h
    exact List.length_take_le limit _
  · intro recommenders client_info limit _ hbound
    rcases client_info with _ | info
    · simp [RecommendationManager.recommend]
    induction recommenders with
    | nil => simp [RecommendationManager.recommend, dispatch]
    | cons r rest ih =>
      simp only [RecommendationManager.recommend, dispatch]
      by_cases hr : r.can_recommend info = true
      · rw [if_pos hr]
        exact hbound r (List.mem_cons_self r rest) info limit
      · rw [if_neg hr]
        have := ih (fun q hq => hbound q (List.mem_cons_of_mem r hq))
        simpa [RecommendationManager.recommend] using this

/-- C2 witness: bound attained at a concrete donor pool and a concrete
dispatcher configuration. -/
theorem recommend_length_bounded_witness :
    (["a1", "a2"] : List String).length ≤ 2 ∧
    (RecommendationManager.recommend [probeRecommenderOn] (some probeClient) 1).length ≤ 1 :=
  ⟨recommend_length_bounded.1 (some [probeDonorFar, probeDonorNear]) (some probeCurve)
      probeClient 2 ["a1", "a2"] (by norm_num)
      (by
        norm_num +decide [recommend, get_similar_donors, donorLRs, compositeDistances,
          clientContFeats, clientCatFeats, canberra, hammingDist, continuousFeaturesCache,
          categoricalFeaturesCache, donorContFeatures, donorCatFeatures, get_lr, argminIdx,
          argsortDesc, aggregateAddons, probeClient, probeDonorNear, probeDonorFar, probeCurve,
          mapOrFail, List.insertionSort, List.orderedInsert, List.getD,
          abs_of_nonneg, abs_of_nonpos]),
    recommend_length_bounded.2 [probeRecommenderOn] (some probeClient) 1 (by norm_num)
      (by
        intro r hr p l
        rw [List.mem_singleton.mp hr]
        simp [probeRecommenderOn])⟩

theorem zip_map_self {α β : Type} (g : α → β) (l : List α) :
    l.zip (l.map g) = l.map (fun x => (x, g x)) := by
  induction l with
  | nil => rfl
  | cons x xs ih => simp [ih]

theorem recommend_eq_of_gsd (donors : List Donor) (curves : List CurvePoint)
    (c : ClientData) (limit : Nat) (ranking : List ℚ) (indices : List Nat)
    (h : get_similar_donors donors curves c = some (ranking, indices))
    (hne : ranking ≠ []) :
    recommend (some donors) (some curves) c limit =
      some ((aggregateAddons donors limit
        ((indices.zip ranking).filterMap fun p => if 1 < p.2 then some p.1 else none)
        []).take limit) := by
  rcases ranking with _ | ⟨r0, rest⟩
  · exact absurd rfl hne
  simp only [recommend, h]

/-- C3 counterexample: with an empty (present) donor pool there is no donor
at all, hence no donor whose LR exceeds 1.0, yet `recommend` does not return
the empty sequence: it fails (IndexError at `donor_set_ranking[0]`,
modelled by `none`). -/
theorem lr_gate_counterexample :
    donorLRs [] probeCurve probeClient = some [] ∧
    recommend (some []) (some probeCurve) probeClient 5 = none :=
  ⟨rfl, rfl⟩

/-- C3 (amended): every add-on in a returned list comes from a donor whose
LR exceeds 1.0, and — provided the donor pool is nonempty — if no donor's
LR exceeds 1.0 the result is the empty sequence, not a failure. -/
theorem lr_gate_controls_contributions (donors : List Donor) (curves : List CurvePoint)
    (c : ClientData) (limit : Nat) (lrs : List ℚ)
    (hlrs : donorLRs donors curves c = some lrs) :
    (∀ res, recommend (some donors) (some curves) c limit = some res →
      ∀ a ∈ res, ∃ i, i < donors.length ∧ 1 < lrs.getD i 0 ∧
        a ∈ (donors.getD i defaultDonor).active_addons) ∧
    (donors ≠ [] → (∀ i, i < donors.length → lrs.getD i 0 ≤ 1) →
      recommend (some donors) (some curves) c limit = some []) := by
  have hlen : lrs.length = donors.length := donorLRs_length donors curves c lrs hlrs
  have hgsd : get_similar_donors donors curves c =
      some ((argsortDesc lrs).map (fun i => lrs.getD i 0), argsortDesc lrs) := by
    simp [get_similar_donors, hlrs]
  have hhighest :
      ((argsortDesc lrs).zip ((argsortDesc lrs).map (fun i => lrs.getD i 0))).filterMap
          (fun p => if 1 < p.2 then some p.1 else none) =
        (argsortDesc lrs).filterMap
          (fun i => if 1 < lrs.getD i 0 then some i else none) := by
    rw [zip_map_self, List.filterMap_map]
    rfl
  constructor
  · intro res hres a ha
    by_cases hrnil : (argsortDesc lrs).map (fun i => lrs.getD i 0) = []
    · rw [hrnil] at hgsd
      exact absurd hres (by simp [recommend, hgsd])
    rw [recommend_eq_of_gsd donors curves c limit _ _ hgsd hrnil, Option.some_inj] at hres
    subst hres
    have ha' := List.take_subset limit _ ha
    rcases mem_aggregateAddons donors limit _ [] a ha' with hfalse | ⟨i, hi, hai⟩
    · exact absurd hfalse (by simp)
    · rw [hhighest] at hi
      rcases List.mem_filterMap.mp hi with ⟨j, hj, hcond⟩
      by_cases hgt : 1 < lrs.getD j 0
      · rw [if_pos hgt, Option.some_inj] at hcond
        subst hcond
        exact ⟨j, hlen ▸ (mem_argsortDesc lrs j).mp hj, hgt, hai⟩
      · rw [if_neg hgt] at hcond
        exact absurd hcond (by simp)
  · intro hne hle
    have hrne : (argsortDesc lrs).map (fun i => lrs.getD i 0) ≠ [] := by
      intro hmap
      have h0 : (argsortDesc lrs).length = 0 := by
        simpa using congrArg List.length hmap
      rw [length_argsortDesc, hlen] at h0
      exact hne (List.length_eq_zero.mp h0)
    rw [recommend_eq_of_gsd donors curves c limit _ _ hgsd hrne]
    rw [hhighest]
    have hempty : (argsortDesc lrs).filterMap
        (fun i => if 1 < lrs.getD i 0 then some i else none) = [] := by
      rw [List.filterMap_eq_nil_iff]
      intro i hi
      have : i < donors.length := hlen ▸ (mem_argsortDesc lrs i).mp hi
      rw [if_neg (not_lt.mpr (hle i this))]
    rw [hempty]
    simp [aggregateAddons]

/-- C3 witness: one donor below the LR threshold yields the empty
sequence. -/
theorem lr_gate_controls_contributions_witness :
    recommend (some [probeDonorFar]) (some probeCurve) probeClient 7 = some [] :=
  (lr_gate_controls_contributions [probeDonorFar] probeCurve probeClient 7 [1 / 2]
    (by
      norm_num +decide [donorLRs, compositeDistances, clientContFeats, clientCatFeats,
        canberra, hammingDist, continuousFeaturesCache, categoricalFeaturesCache,
        donorContFeatures, donorCatFeatures, get_lr, argminIdx, probeClient, probeDonorFar,
        probeCurve, mapOrFail, List.getD, abs_of_nonneg, abs_of_nonpos])).2
    (by simp)
    (by
      intro i hi
      have hz : i = 0 := by simpa using hi
      subst hz
      norm_num [List.getD])

/-- C5: for a complete profile, the composite distance used for ranking at
each donor equals the Canberra distance over the 5 continuous features (in
fixed order) plus 0.001, multiplied by the raw-value Hamming distance over
the 3 categorical features. -/
theorem composite_distance_formula (donors : List Donor) (c : ClientData)
    (h8 : hasRequiredFields c = true) (i : Nat) (hi : i < donors.length) :
    ∃ contC ds, clientContFeats c = some contC ∧ compositeDistances donors c = some ds ∧
      ds.getD i 0 =
        (canberra contC (donorContFeatures (donors.getD i defaultDonor)) + 1 / 1000) *
          hammingDist (donorCatFeatures (donors.getD i defaultDonor)) (clientCatFeats c) := by
  rcases hsl : c.subsession_length with _ | a
  · rw [hasRequiredFields, hsl] at h8
    simp at h8
  rcases hbc : c.bookmark_count with _ | b
  · rw [hasRequiredFields, hbc] at h8
    simp at h8
  rcases htc : c.tab_open_count with _ | t
  · rw [hasRequiredFields, htc] at h8
    simp at h8
  rcases htu : c.total_uri with _ | u
  · rw [hasRequiredFields, htu] at h8
    simp at h8
  rcases hut : c.unique_tlds with _ | v
  · rw [hasRequiredFields, hut] at h8
    simp at h8
  have hfeats : clientContFeats c = some [a, b, t, u, v] := by
    simp only [clientContFeats, hsl, hbc, htc, htu, hut]
  have hcd : compositeDistances donors c =
      some (List.zipWith (fun x y => (x + 1 / 1000) * y)
        ((continuousFeaturesCache donors).map (fun row => canberra row [a, b, t, u, v]))
        ((categoricalFeaturesCache donors).map
          (fun row => hammingDist row (clientCatFeats c)))) := by
    simp only [compositeDistances, hfeats]
  refine ⟨[a, b, t, u, v], _, hfeats, hcd, ?_⟩
  · have hlen1 : (continuousFeaturesCache donors).length = donors.length := by
      simp [continuousFeaturesCache]
    have hlen2 : (categoricalFeaturesCache donors).length = donors.length := by
      simp [categoricalFeaturesCache]
    rw [getD_zipWith_of_lt _ (0 : ℚ) (0 : ℚ) (0 : ℚ) _ _ i
      (by simpa [hlen1] using hi) (by simpa [hlen2] using hi)]
    rw [continuousFeaturesCache, categoricalFeaturesCache,
      getD_map_of_lt _ (donorContFeatures defaultDonor) 0 _ i (by simpa using hi),
      getD_map_of_lt _ (donorCatFeatures defaultDonor) 0 _ i (by simpa using hi),
      getD_map_of_lt donorContFeatures defaultDonor (donorContFeatures defaultDonor)
        donors i hi,
      getD_map_of_lt donorCatFeatures defaultDonor (donorCatFeatures defaultDonor)
        donors i hi]
    rw [canberra_comm]

/-- C5 witness: the formula at a concrete donor and profile. -/
theorem composite_distance_formula_witness :
    ∃ contC ds, clientContFeats probeClient = some contC ∧
      compositeDistances [probeDonorFar] probeClient = some ds ∧
      ds.getD 0 0 =
        (canberra contC (donorContFeatures ([probeDonorFar].getD 0 defaultDonor)) + 1 / 1000) *
          hammingDist (donorCatFeatures ([probeDonorFar].getD 0 defaultDonor))
            (clientCatFeats probeClient) :=
  composite_distance_formula [probeDonorFar] probeClient rfl 0 (by norm_num)

/-- C6: on a nonempty calibration curve (sorted or not), `get_lr` returns
the density ratio of the entry whose score is nearest to the input in
absolute difference, ties resolved in favour of the earliest entry of the
curve. -/
theorem get_lr_nearest_entry (lr_curves : List CurvePoint) (score : ℚ)
    (h : lr_curves ≠ []) :
    ∃ idx, idx < lr_curves.length ∧
      get_lr lr_curves score =
        some ((lr_curves.getD idx (0, 0, 0)).2.1 / (lr_curves.getD idx (0, 0, 0)).2.2) ∧
      (∀ j, j < lr_curves.length →
        |score - (lr_curves.getD idx (0, 0, 0)).1| ≤ |score - (lr_curves.getD j (0, 0, 0)).1|) ∧
      (∀ j, j < idx →
        |score - (lr_curves.getD idx (0, 0, 0)).1| < |score - (lr_curves.getD j (0, 0, 0)).1|) := by
  rcases lr_curves with _ | ⟨p0, ps⟩
  · exact absurd rfl h
  have hbridge : ∀ j, j < (p0 :: ps).length →
      (((p0 :: ps).map (fun s => s.1)).map (fun v => |score - v|)).getD j 0 =
        |score - ((p0 :: ps).getD j (0, 0, 0)).1| := by
    intro j hj
    rw [List.map_map]
    exact getD_map_of_lt _ (0, 0, 0) 0 (p0 :: ps) j hj
  have hLlen : (((p0 :: ps).map (fun s => s.1)).map (fun v => |score - v|)).length =
      (p0 :: ps).length := by simp
  have hidx : argminIdx (((p0 :: ps).map (fun s => s.1)).map (fun v => |score - v|)) <
      (p0 :: ps).length := by
    rw [← hLlen]
    exact argminIdx_lt _ (by simp)
  refine ⟨argminIdx (((p0 :: ps).map (fun s => s.1)).map (fun v => |score - v|)),
    hidx, rfl, ?_, ?_⟩
  · intro j hj
    have := argminIdx_le (((p0 :: ps).map (fun s => s.1)).map (fun v => |score - v|)) j
      (by rw [hLlen]; exact hj)
    rwa [hbridge _ hidx, hbridge _ hj] at this
  · intro j hj
    have hjlt : j < (p0 :: ps).length := lt_trans hj hidx
    have := argminIdx_first (((p0 :: ps).map (fun s => s.1)).map (fun v => |score - v|)) j hj
    rwa [hbridge _ hidx, hbridge _ hjlt] at this

/-- C6 witness: nearest-entry lookup on the concrete probe curve. -/
theorem get_lr_nearest_entry_witness :
    ∃ idx, idx < probeCurve.length ∧
      get_lr probeCurve 2 =
        some ((probeCurve.getD idx (0, 0, 0)).2.1 / (probeCurve.getD idx (0, 0, 0)).2.2) ∧
      (∀ j, j < probeCurve.length →
        |(2 : ℚ) - (probeCurve.getD idx (0, 0, 0)).1| ≤
          |(2 : ℚ) - (probeCurve.getD j (0, 0, 0)).1|) ∧
      (∀ j, j < idx →
        |(2 : ℚ) - (probeCurve.getD idx (0, 0, 0)).1| <
          |(2 : ℚ) - (probeCurve.getD j (0, 0, 0)).1|) :=
  get_lr_nearest_entry probeCurve 2 (by simp [probeCurve])

/-- C9: the returned list is the first `limit` entries of the concatenated
`active_addons` of the donors whose LR exceeds 1.0, taken in the ranked
(LR-descending, as the sortedness conjunct states) order; the aggregation
loop's overshoot-and-break behaviour is erased by the final truncation,
within-donor order is preserved and no deduplication happens (the result is
a plain concatenation slice). -/
theorem recommend_is_truncated_ranked_concat (donors : List Donor)
    (curves : List CurvePoint) (c : ClientData) (limit : Nat)
    (ranking : List ℚ) (indices : List Nat)
    (h : get_similar_donors donors curves c = some (ranking, indices))
    (hne : ranking ≠ []) :
    recommend (some donors) (some curves) c limit =
      some (((((indices.zip ranking).filterMap fun p =>
          if 1 < p.2 then some p.1 else none).map fun i =>
            (donors.getD i defaultDonor).active_addons).flatten).take limit) ∧
    List.Sorted (· ≥ ·) ranking := by
  constructor
  · rcases ranking with _ | ⟨r0, rest⟩
    · exact absurd rfl hne
    simp only [recommend, h]
    rw [aggregateAddons_take donors limit _ []]
    simp
  · obtain ⟨lrs, _, hidx, hrank⟩ := get_similar_donors_eq donors curves c ranking indices h
    subst hidx
    subst hrank
    exact List.Pairwise.map _ (fun a b hab => hab) (argsortDesc_sorted lrs)

/-- C9 witness: two donors, one above and one below the LR threshold. -/
theorem recommend_is_truncated_ranked_concat_witness :
    recommend (some [probeDonorFar, probeDonorNear]) (some probeCurve) probeClient 10 =
      some ((((([1, 0].zip ([2, 1 / 2] : List ℚ)).filterMap fun p =>
          if 1 < p.2 then some p.1 else none).map fun i =>
            ([probeDonorFar, probeDonorNear].getD i defaultDonor).active_addons).flatten).take 10) ∧
    List.Sorted (· ≥ ·) ([2, 1 / 2] : List ℚ) :=
  recommend_is_truncated_ranked_concat [probeDonorFar, probeDonorNear] probeCurve probeClient 10
    [2, 1 / 2] [1, 0]
    (by
      norm_num +decide [get_similar_donors, donorLRs, compositeDistances,
        clientContFeats, clientCatFeats, canberra, hammingDist, continuousFeaturesCache,
        categoricalFeaturesCache, donorContFeatures, donorCatFeatures, get_lr, argminIdx,
        argsortDesc, probeClient, probeDonorNear, probeDonorFar, probeCurve,
        mapOrFail, List.insertionSort, List.orderedInsert, List.getD,
        abs_of_nonneg, abs_of_nonpos])
    (by simp)

end Taar
